import Mathlib

/-!
# Verification of the ipresolver pipeline (src/python/main.py)

Shallow embedding of the hostname validation / normalization / resolution /
persistence pipeline of `main.py`, together with theorems settling the
specification claims.

Modelling conventions:
* Python strings are Lean `String` / `List Char`.
* The platform resolver (`socket.gethostbyname`) is an oracle
  `String → Option String` (`some ip` on success, `none` for `gaierror`).
* The SQLite-backed store is a list of records plus an auto-increment
  counter; a storage fault during `clear` is an `Option String` oracle.
* `urllib.parse.urlparse(...).hostname` is modelled for inputs without
  square brackets (bracketed IPv6 authorities can make CPython raise
  `ValueError`; universal theorems carry an explicit no-bracket,
  ASCII-only hypothesis for that reason).
-/

/-! ## Hostname validator: `is_valid_hostname`

Source:
```python
def is_valid_hostname(hostname):
    hostname_pattern = r'^[a-zA-Z0-9-]+(\.[a-zA-Z0-9-]+)+$'
    return re.match(hostname_pattern, hostname)
```
The regex is translated as a deterministic matcher (the character class
`[a-zA-Z0-9-]` is disjoint from `.`, so the greedy `+` never needs
backtracking).  Python's `$` matches at the end of the string or just
before a single trailing newline, which the matcher reproduces. -/

/-- The character class `[a-zA-Z0-9-]` of the hostname regex. -/
def labelChar (c : Char) : Bool :=
  c.isAlphanum || c == '-'

/-- State of the matcher after at least one character of a non-initial label
(i.e. a label after some dot) has been consumed.  Accepting: the regex `$`
matches at the end or just before one trailing newline. -/
def inLabel : List Char → Bool
  | [] => true
  | c :: cs =>
    if labelChar c then inLabel cs
    else if c == '.' then
      match cs with
      | c' :: cs' => labelChar c' && inLabel cs'
      | [] => false
    else if c == '\n' then cs.isEmpty
    else false

/-- State of the matcher after at least one character of the first label has
been consumed.  Not accepting: the regex requires at least one dot. -/
def firstLabel : List Char → Bool
  | [] => false
  | c :: cs =>
    if labelChar c then firstLabel cs
    else if c == '.' then
      match cs with
      | c' :: cs' => labelChar c' && inLabel cs'
      | [] => false
    else false

/-- `is_valid_hostname` of `main.py`: truthiness of
`re.match(r'^[a-zA-Z0-9-]+(\.[a-zA-Z0-9-]+)+$', hostname)`. -/
def is_valid_hostname (s : String) : Bool :=
  match s.toList with
  | [] => false
  | c :: cs => labelChar c && firstLabel cs

/-! ### The regex as a mathematical language

Direct reading of `^L+(\.L+)+$` with `L = [a-zA-Z0-9-]`: a nonempty label,
then one or more groups each consisting of a literal dot and a nonempty
label, then the Python end-anchor (end of string, or a single trailing
newline). -/

/-- A nonempty word over the class `[a-zA-Z0-9-]`. -/
def GoodLabel (l : List Char) : Prop :=
  l ≠ [] ∧ ∀ c ∈ l, labelChar c = true

/-- The concatenation `(\.L+)(\.L+)...` for the given list of labels. -/
def tailForm (ls : List (List Char)) : List Char :=
  (ls.map (fun l => '.' :: l)).flatten

/-- Membership in the language of `^[a-zA-Z0-9-]+(\.[a-zA-Z0-9-]+)+$` under
Python `re.match` semantics (`$` also matches just before one trailing
newline). -/
def regexLangL (cs : List Char) : Prop :=
  ∃ l₀ ls, GoodLabel l₀ ∧ ls ≠ [] ∧ (∀ l ∈ ls, GoodLabel l) ∧
    (cs = l₀ ++ tailForm ls ∨ cs = l₀ ++ tailForm ls ++ ['\n'])

/-- String-level version of `regexLangL`. -/
def regexLang (s : String) : Prop :=
  regexLangL s.toList

/-- Language of the matcher state `inLabel`: a possibly empty run of label
characters, zero or more further dot-label groups, then the end anchor. -/
def Accept2 (cs : List Char) : Prop :=
  ∃ l ls, (∀ c ∈ l, labelChar c = true) ∧ (∀ l' ∈ ls, GoodLabel l') ∧
    (cs = l ++ tailForm ls ∨ cs = l ++ tailForm ls ++ ['\n'])

/-- Language of the matcher state `firstLabel`: like `Accept2` but with at
least one further dot-label group, matching `L*(\.L+)+` plus the anchor. -/
def Accept1 (cs : List Char) : Prop :=
  ∃ l ls, (∀ c ∈ l, labelChar c = true) ∧ ls ≠ [] ∧ (∀ l' ∈ ls, GoodLabel l') ∧
    (cs = l ++ tailForm ls ∨ cs = l ++ tailForm ls ++ ['\n'])

/-! ## Hostname normalizer: `urlparse(input).hostname or input_data`

Source (`resolve_ip`):
```python
parsed_url = urlparse(input_data)
hostname = parsed_url.hostname or input_data
```
`urllib.parse.urlsplit` (CPython) first strips leading WHATWG C0-control /
space characters and removes every tab, carriage return and newline, then
splits off a scheme (`[a-zA-Z][a-zA-Z0-9+.-]*` before the first `:`), takes
the netloc after a leading `//` up to the first `/`, `?` or `#`, and the
`hostname` property keeps the part of the netloc after the last `@`, drops
everything from the port separator `:` on, lowercases it (up to a `%` zone
separator) and returns `None` when it is empty.

The bracketed-IPv6 branch of `_hostinfo` is included, but the `ValueError`
paths of CPython (mismatched brackets, invalid bracketed hosts, non-ASCII
netloc normalization checks) are not modelled; universal theorems therefore
restrict inputs to bracket-free ASCII strings via `asciiNoBracket`. -/

/-- WHATWG C0 control or space: code points `U+0000`–`U+0020`. -/
def c0ControlOrSpace (c : Char) : Bool :=
  c.toNat ≤ 32

/-- CPython `_UNSAFE_URL_BYTES_TO_REMOVE`: tab, carriage return, newline. -/
def unsafeURLByte (c : Char) : Bool :=
  c == '\t' || c == '\r' || c == '\n'

/-- The cleanup `urlsplit` applies before parsing: left-strip C0
controls/space, then remove all unsafe bytes. -/
def sanitizeURL (s : String) : List Char :=
  (s.toList.dropWhile c0ControlOrSpace).filter (fun c => !unsafeURLByte c)

/-- `scheme_chars` of `urllib.parse`: letters, digits, `+`, `-`, `.`. -/
def schemeChar (c : Char) : Bool :=
  c.isAlphanum || c == '+' || c == '-' || c == '.'

/-- Scheme splitting of `urlsplit`: if the text before the first `:` is a
nonempty ASCII-letter-initial run of scheme characters, drop it together
with the colon; otherwise leave the input unchanged. -/
def splitScheme (cs : List Char) : List Char :=
  let pre := cs.takeWhile (fun c => c != ':')
  if pre.length < cs.length then
    match pre with
    | [] => cs
    | c :: rest =>
      if c.isAlpha && rest.all schemeChar then cs.drop (pre.length + 1) else cs
  else cs

/-- Netloc extraction of `urlsplit`: after a leading `//`, up to the first
`/`, `?` or `#`; empty when there is no leading `//`. -/
def netlocOf : List Char → List Char
  | '/' :: '/' :: rest => rest.takeWhile (fun c => c != '/' && c != '?' && c != '#')
  | _ => []

/-- `netloc.rpartition('@')[2]`: the part after the last `@` (the whole
netloc when there is none). -/
def hostinfoOf (netloc : List Char) : List Char :=
  (netloc.reverse.takeWhile (fun c => c != '@')).reverse

/-- The lowercasing of the `hostname` property
(`hostname.partition('%')`): the part before a `%` zone separator is
lowercased, the rest — separator included — is kept verbatim. -/
def lowerHost (cs : List Char) : List Char :=
  (cs.takeWhile (fun c => c != '%')).map Char.toLower ++
    cs.dropWhile (fun c => c != '%')

/-- Raw host slice of a netloc-after-`@` part: the bracketed chunk for an
IPv6 authority, otherwise everything before the port separator `:`. -/
def hostRawOf (hostinfo : List Char) : List Char :=
  if hostinfo.contains '[' then
    ((hostinfo.dropWhile (fun c => c != '[')).drop 1).takeWhile (fun c => c != ']')
  else hostinfo.takeWhile (fun c => c != ':')

/-- `urlparse(s).hostname` as an `Option`: `none` stands for Python `None`. -/
def urlhost (s : String) : Option String :=
  let hostRaw := hostRawOf (hostinfoOf (netlocOf (splitScheme (sanitizeURL s))))
  if hostRaw.isEmpty then none else some (String.mk (lowerHost hostRaw))

/-- `hostname = parsed_url.hostname or input_data`: Python `or` falls back
to the raw input exactly when the `hostname` attribute is `None`. -/
def candidate (s : String) : String :=
  (urlhost s).getD s

/-- The bracket-free printable-ASCII inputs on which the `urlhost` model is
claimed to be faithful to CPython (no `ValueError` paths, ASCII-only
lowercasing). -/
def asciiNoBracket (s : String) : Bool :=
  s.toList.all (fun c => c.toNat < 128 && c != '[' && c != ']')

/-- Candidate hostname as the specification words it (section 4.1 Hostname
Normalizer): the network-location component itself — port retained — when
non-empty, otherwise the trimmed raw input.  Stated only for comparison
with the source-derived `candidate`. -/
def trimmed (s : String) : String :=
  String.mk (((s.toList.dropWhile Char.isWhitespace).reverse.dropWhile
    Char.isWhitespace).reverse)

def candidateSpec (s : String) : String :=
  let netloc := netlocOf (splitScheme (sanitizeURL s))
  if netloc.isEmpty then trimmed s else String.mk netloc

/-! ## Record store

Source: the SQLAlchemy `IPAddress` table plus `store_ip_address`,
`get_ip_addresses`, and the mutation parts of `delete_record` /
`clear_database`.  The SQLite table is a list of rows in insertion order
with an auto-increment integer primary key starting at 1. -/

/-- A row of the `ip_addresses` table. -/
structure IPAddress where
  id : Int
  hostname : String
  ip_address : String
deriving Repr, DecidableEq

/-- The database state: rows in insertion order plus the next
auto-increment id. -/
structure Store where
  records : List IPAddress
  nextId : Int
deriving Repr, DecidableEq

/-- A freshly created `ip_addresses.db`: no rows, ids start at 1. -/
def emptyStore : Store :=
  ⟨[], 1⟩

/-- `store_ip_address`: `session.add(...)` + `commit` appends a row with
the next auto-increment id. -/
def store_ip_address (st : Store) (hostname ip_address : String) : Store :=
  { records := st.records ++ [⟨st.nextId, hostname, ip_address⟩],
    nextId := st.nextId + 1 }

/-- `get_ip_addresses`: `session.query(IPAddress).all()` in insertion
order. -/
def get_ip_addresses (st : Store) : List IPAddress :=
  st.records

/-! ## Python `int()` parsing (used by `delete_record`)

`int(record_id)` strips surrounding whitespace, accepts an optional sign
and a nonempty digit run in which single underscores may separate digits;
anything else raises `ValueError`.  Only the ASCII fragment is modelled
(Unicode digits and spaces do not occur in the claims). -/

/-- ASCII whitespace stripped by `int()` (via `str.strip`). -/
def pySpace (c : Char) : Bool :=
  c == ' ' || c == '\t' || c == '\n' || c == '\r' ||
    c == Char.ofNat 11 || c == Char.ofNat 12

/-- Digit run with optional single underscores between digits, after the
first digit has been consumed into `acc`. -/
def parseDigitsAux : Nat → List Char → Option Nat
  | acc, [] => some acc
  | acc, '_' :: c :: cs =>
    if c.isDigit then parseDigitsAux (acc * 10 + (c.toNat - 48)) cs else none
  | acc, c :: cs =>
    if c.isDigit then parseDigitsAux (acc * 10 + (c.toNat - 48)) cs else none

/-- A nonempty digit run (with single underscores between digits). -/
def parseDigits : List Char → Option Nat
  | c :: cs => if c.isDigit then parseDigitsAux (c.toNat - 48) cs else none
  | [] => none

/-- `int(s)` on the ASCII fragment: `some n` on success, `none` for
`ValueError`. -/
def parsePyInt (s : String) : Option Int :=
  let cs := ((s.toList.dropWhile pySpace).reverse.dropWhile pySpace).reverse
  match cs with
  | '+' :: ds => (parseDigits ds).map (fun n => (n : Int))
  | '-' :: ds => (parseDigits ds).map (fun n => -(n : Int))
  | ds => (parseDigits ds).map (fun n => (n : Int))

/-! ## `delete_record`

Source:
```python
record_id = click.prompt("Enter the ID of the record you want to delete")
try:
    record_id = int(record_id)
except ValueError:
    print("Invalid ID. Please enter a valid numeric ID."); return
ip_addresses = get_ip_addresses()
for ip_address in ip_addresses:
    if ip_address.id == record_id:
        session.delete(ip_address); session.commit()
        print(f"Record with ID {record_id} deleted successfully."); return
print(f"No record found with ID {record_id}.")
``` -/

/-- Outcome reported by `delete_record`. -/
inductive DeleteOutcome where
  | invalidId
  | deleted (id : Int)
  | notFound (id : Int)
deriving Repr, DecidableEq

/-- Remove the first row with the given id, as the `for` loop with
`session.delete` does; `none` when no row matches. -/
def removeFirst (n : Int) : List IPAddress → Option (List IPAddress)
  | [] => none
  | r :: rs =>
    if r.id = n then some rs else (removeFirst n rs).map (fun rs' => r :: rs')

/-- `delete_record` on input string `input` against store `st`. -/
def delete_record (input : String) (st : Store) : DeleteOutcome × Store :=
  match parsePyInt input with
  | none => (.invalidId, st)
  | some n =>
    match removeFirst n st.records with
    | some recs => (.deleted n, { st with records := recs })
    | none => (.notFound n, st)

/-! ## `clear_database`

Source:
```python
try:
    session.query(IPAddress).delete()
    session.commit()
    print("Database cleared successfully.")
except SQLAlchemyError as error:
    session.rollback()
    print(f"Error clearing the database: {str(error)}")
```
A failure of the underlying storage engine is an external event, modelled
by a fault oracle: `some cause` makes the delete/commit raise
`SQLAlchemyError(cause)`, `none` lets it succeed.  `query(...).delete()`
returns the number of deleted rows. -/

/-- Outcome reported by `clear_database`. -/
inductive ClearOutcome where
  | cleared (count : Nat)
  | storageError (message : String)
deriving Repr, DecidableEq

/-- `clear_database` under fault oracle `fault`. -/
def clear_database (st : Store) (fault : Option String) : ClearOutcome × Store :=
  match fault with
  | some cause => (.storageError ("Error clearing the database: " ++ cause), st)
  | none => (.cleared st.records.length, { st with records := [] })

/-! ## The unused pydantic validator `ResolveInput`

Source:
```python
@dataclasses.dataclass
class ResolveInput(BaseModel):
    input_url: str = Field(min_length=6, max_length=20)

    @field_validator('input_url')
    @classmethod
    def validate_url(cls, value):
        if not is_valid_hostname(value):
            raise ValueError("Invalid input. Please enter a valid hostname or URL.")
        return value
```
Pydantic checks the `Field` length constraints before running the field
validator; construction either succeeds with the value or raises a
validation error whose message is reproduced here.  Note: `resolve_ip`
never constructs a `ResolveInput`, so this check is dead code in
`main.py`. -/

/-- Validation performed by constructing `ResolveInput(input_url := s)`. -/
def resolveInputCheck (s : String) : Except String String :=
  if s.length < 6 then .error "String should have at least 6 characters"
  else if 20 < s.length then .error "String should have at most 20 characters"
  else if is_valid_hostname s then .ok s
  else .error "Invalid input. Please enter a valid hostname or URL."

/-! ## The resolve pipeline: one iteration of the `resolve_ip` loop

Source:
```python
input_data = click.prompt(...)
if input_data == 'back':
    print("Operation aborted by the user."); break
parsed_url = urlparse(input_data)
hostname = parsed_url.hostname or input_data
ip_address = socket.gethostbyname(hostname)
store_ip_address(hostname, ip_address)
print(f'Hostname: {hostname}'); print(f'IP: {ip_address}')
except socket.gaierror:
    print(f'Error: Unable to resolve hostname {hostname}.')
```
`socket.gethostbyname` is an oracle `Resolver`; `resolverCalls` records the
arguments of every resolver invocation the iteration performs. -/

/-- DNS oracle: `some ip` on success, `none` for `socket.gaierror`. -/
def Resolver : Type :=
  String → Option String

/-- Terminal outcome of one iteration of the `resolve_ip` loop. -/
inductive StepOutcome where
  | aborted
  | stored (hostname ip : String)
  | resolveFailed (hostname : String)
deriving Repr, DecidableEq

/-- Result of one iteration: the reported outcome, the store afterwards,
and the hostnames passed to the resolver. -/
structure StepResult where
  outcome : StepOutcome
  store : Store
  resolverCalls : List String
deriving Repr, DecidableEq

/-- One iteration of the `resolve_ip` loop on raw input `input`. -/
def resolve_ip_step (resolver : Resolver) (st : Store) (input : String) : StepResult :=
  if input = "back" then ⟨.aborted, st, []⟩
  else
    let hostname := candidate input
    match resolver hostname with
    | some ip => ⟨.stored hostname ip, store_ip_address st hostname ip, [hostname]⟩
    | none => ⟨.resolveFailed hostname, st, [hostname]⟩

/-- The error line printed on `socket.gaierror`. -/
def resolveErrorMessage (hostname : String) : String :=
  "Error: Unable to resolve hostname " ++ hostname ++ "."

/-! ### Equivalence of the matcher with the regex language -/

theorem tailForm_nil : tailForm [] = [] := rfl

theorem tailForm_cons (l : List Char) (ls : List (List Char)) :
    tailForm (l :: ls) = '.' :: (l ++ tailForm ls) := by
  simp [tailForm]

-- unfolding helpers
theorem inLabel_cons_label {c : Char} (cs : List Char) (hc : labelChar c = true) :
    inLabel (c :: cs) = inLabel cs := by
  cases cs with
  | nil => rw [inLabel.eq_3, if_pos hc]
  | cons c' cs' => rw [inLabel.eq_2, if_pos hc]

theorem inLabel_cons_dot (c' : Char) (cs'' : List Char) :
    inLabel ('.' :: c' :: cs'') = (labelChar c' && inLabel cs'') := by
  rw [inLabel.eq_2, if_neg (by decide), if_pos (by decide)]

theorem inLabel_cons_nl (cs : List Char) : inLabel ('\n' :: cs) = cs.isEmpty := by
  cases cs with
  | nil => rw [inLabel.eq_3]; decide
  | cons c' cs' =>
    rw [inLabel.eq_2, if_neg (by decide), if_neg (by decide), if_pos (by decide)]

theorem inLabel_cons_other {c : Char} (cs : List Char) (hc : ¬ labelChar c = true)
    (hd : ¬ c = '.') (hn : ¬ c = '\n') : inLabel (c :: cs) = false := by
  cases cs with
  | nil =>
    rw [inLabel.eq_3, if_neg hc, if_neg (by simpa using hd), if_neg (by simpa using hn)]
  | cons c' cs' =>
    rw [inLabel.eq_2, if_neg hc, if_neg (by simpa using hd), if_neg (by simpa using hn)]

theorem firstLabel_cons_label {c : Char} (cs : List Char) (hc : labelChar c = true) :
    firstLabel (c :: cs) = firstLabel cs := by
  cases cs with
  | nil => rw [firstLabel.eq_3, if_pos hc]
  | cons c' cs' => rw [firstLabel.eq_2, if_pos hc]

theorem firstLabel_cons_dot (c' : Char) (cs'' : List Char) :
    firstLabel ('.' :: c' :: cs'') = (labelChar c' && inLabel cs'') := by
  rw [firstLabel.eq_2, if_neg (by decide), if_pos (by decide)]

theorem firstLabel_cons_other {c : Char} (cs : List Char) (hc : ¬ labelChar c = true)
    (hd : ¬ c = '.') : firstLabel (c :: cs) = false := by
  cases cs with
  | nil => rw [firstLabel.eq_3, if_neg hc, if_neg (by simpa using hd)]
  | cons c' cs' => rw [firstLabel.eq_2, if_neg hc, if_neg (by simpa using hd)]

-- constructors
theorem Accept2_nil : Accept2 [] :=
  ⟨[], [], by simp, by simp, Or.inl rfl⟩

theorem Accept2_nl : Accept2 ['\n'] :=
  ⟨[], [], by simp, by simp, Or.inr rfl⟩

theorem accept2_cons_label {c : Char} {cs : List Char} (hc : labelChar c = true)
    (h : Accept2 cs) : Accept2 (c :: cs) := by
  obtain ⟨l, ls, hl, hls, heq⟩ := h
  refine ⟨c :: l, ls, ?_, hls, ?_⟩
  · intro d hd
    rcases List.mem_cons.mp hd with h | h
    · exact h ▸ hc
    · exact hl d h
  · rcases heq with h | h <;> simp [h]

theorem accept2_cons_dot {c' : Char} {cs' : List Char} (hc' : labelChar c' = true)
    (h : Accept2 cs') : Accept2 ('.' :: c' :: cs') := by
  obtain ⟨l, ls, hl, hls, heq⟩ := h
  refine ⟨[], (c' :: l) :: ls, by simp, ?_, ?_⟩
  · intro l' hl'
    rcases List.mem_cons.mp hl' with h' | h'
    · subst h'
      refine ⟨by simp, ?_⟩
      intro e he
      rcases List.mem_cons.mp he with h'' | h''
      · exact h'' ▸ hc'
      · exact hl e h''
    · exact hls l' h'
  · rcases heq with h' | h' <;> [left; right] <;> rw [tailForm_cons] <;> simp [h']

theorem accept1_cons_label {c : Char} {cs : List Char} (hc : labelChar c = true)
    (h : Accept1 cs) : Accept1 (c :: cs) := by
  obtain ⟨l, ls, hl, hne, hls, heq⟩ := h
  refine ⟨c :: l, ls, ?_, hne, hls, ?_⟩
  · intro d hd
    rcases List.mem_cons.mp hd with h | h
    · exact h ▸ hc
    · exact hl d h
  · rcases heq with h | h <;> simp [h]

theorem accept1_cons_dot {c' : Char} {cs' : List Char} (hc' : labelChar c' = true)
    (h : Accept2 cs') : Accept1 ('.' :: c' :: cs') := by
  obtain ⟨l, ls, hl, hls, heq⟩ := h
  refine ⟨[], (c' :: l) :: ls, by simp, by simp, ?_, ?_⟩
  · intro l' hl'
    rcases List.mem_cons.mp hl' with h' | h'
    · subst h'
      refine ⟨by simp, ?_⟩
      intro e he
      rcases List.mem_cons.mp he with h'' | h''
      · exact h'' ▸ hc'
      · exact hl e h''
    · exact hls l' h'
  · rcases heq with h' | h' <;> [left; right] <;> rw [tailForm_cons] <;> simp [h']

-- head classification
theorem accept2_head {c : Char} {cs : List Char} (h : Accept2 (c :: cs)) :
    (labelChar c = true ∧ Accept2 cs) ∨
    (c = '.' ∧ ∃ c' cs', cs = c' :: cs' ∧ labelChar c' = true ∧ Accept2 cs') ∨
    (c = '\n' ∧ cs = []) := by
  obtain ⟨l, ls, hl, hls, heq⟩ := h
  match l with
  | d :: l' =>
    rcases heq with h | h <;>
      simp only [List.cons_append, List.append_assoc, List.cons.injEq] at h
    · exact Or.inl ⟨h.1 ▸ hl d (by simp),
        ⟨l', ls, fun e he => hl e (by simp [he]), hls, Or.inl h.2⟩⟩
    · exact Or.inl ⟨h.1 ▸ hl d (by simp),
        ⟨l', ls, fun e he => hl e (by simp [he]), hls,
          Or.inr (by rw [h.2, List.append_assoc])⟩⟩
  | [] =>
    match ls with
    | [] =>
      rcases heq with h | h
      · rw [tailForm_nil] at h
        simp at h
      · rw [tailForm_nil] at h
        simp only [List.nil_append, List.cons.injEq] at h
        exact Or.inr (Or.inr h)
    | l₁ :: ls' =>
      match l₁, (hls l₁ (by simp)).1 with
      | e :: l₁', _ =>
        have he : labelChar e = true := (hls (e :: l₁') (by simp)).2 e (by simp)
        rcases heq with h | h <;>
          rw [tailForm_cons] at h <;>
          simp only [List.nil_append, List.cons_append, List.append_assoc,
            List.cons.injEq] at h
        · refine Or.inr (Or.inl ⟨h.1, e, l₁' ++ tailForm ls', h.2, he, ?_⟩)
          exact ⟨l₁', ls', fun x hx => (hls (e :: l₁') (by simp)).2 x (by simp [hx]),
            fun x hx => hls x (by simp [hx]), Or.inl rfl⟩
        · refine Or.inr (Or.inl ⟨h.1, e, l₁' ++ (tailForm ls' ++ ['\n']), h.2, he, ?_⟩)
          exact ⟨l₁', ls', fun x hx => (hls (e :: l₁') (by simp)).2 x (by simp [hx]),
            fun x hx => hls x (by simp [hx]), Or.inr (by rw [List.append_assoc])⟩

theorem accept1_head {c : Char} {cs : List Char} (h : Accept1 (c :: cs)) :
    (labelChar c = true ∧ Accept1 cs) ∨
    (c = '.' ∧ ∃ c' cs', cs = c' :: cs' ∧ labelChar c' = true ∧ Accept2 cs') := by
  obtain ⟨l, ls, hl, hne, hls, heq⟩ := h
  match l with
  | d :: l' =>
    rcases heq with h | h <;>
      simp only [List.cons_append, List.append_assoc, List.cons.injEq] at h
    · exact Or.inl ⟨h.1 ▸ hl d (by simp),
        ⟨l', ls, fun e he => hl e (by simp [he]), hne, hls, Or.inl h.2⟩⟩
    · exact Or.inl ⟨h.1 ▸ hl d (by simp),
        ⟨l', ls, fun e he => hl e (by simp [he]), hne, hls,
          Or.inr (by rw [h.2, List.append_assoc])⟩⟩
  | [] =>
    match ls with
    | [] => exact absurd rfl hne
    | l₁ :: ls' =>
      match l₁, (hls l₁ (by simp)).1 with
      | e :: l₁', _ =>
        have he : labelChar e = true := (hls (e :: l₁') (by simp)).2 e (by simp)
        rcases heq with h | h <;>
          rw [tailForm_cons] at h <;>
          simp only [List.nil_append, List.cons_append, List.append_assoc,
            List.cons.injEq] at h
        · refine Or.inr ⟨h.1, e, l₁' ++ tailForm ls', h.2, he, ?_⟩
          exact ⟨l₁', ls', fun x hx => (hls (e :: l₁') (by simp)).2 x (by simp [hx]),
            fun x hx => hls x (by simp [hx]), Or.inl rfl⟩
        · refine Or.inr ⟨h.1, e, l₁' ++ (tailForm ls' ++ ['\n']), h.2, he, ?_⟩
          exact ⟨l₁', ls', fun x hx => (hls (e :: l₁') (by simp)).2 x (by simp [hx]),
            fun x hx => hls x (by simp [hx]), Or.inr (by rw [List.append_assoc])⟩

theorem Accept1_not_nil : ¬ Accept1 [] := by
  rintro ⟨l, ls, hl, hne, hls, heq⟩
  match ls with
  | [] => exact hne rfl
  | l₁ :: ls' =>
    rcases heq with h | h <;> rw [tailForm_cons] at h <;>
      exact absurd h.symm (by simp)

theorem inLabel_iff_aux :
    ∀ n, ∀ cs : List Char, cs.length ≤ n → (inLabel cs = true ↔ Accept2 cs) := by
  intro n
  induction n with
  | zero =>
    intro cs hcs
    have : cs = [] := List.length_eq_zero.mp (Nat.le_zero.mp hcs)
    subst this
    exact iff_of_true inLabel.eq_1 Accept2_nil
  | succ n ih =>
    intro cs hcs
    match cs with
    | [] => exact iff_of_true inLabel.eq_1 Accept2_nil
    | c :: cs' =>
      have hlen : cs'.length ≤ n := by simpa using hcs
      by_cases hc : labelChar c = true
      · rw [inLabel_cons_label cs' hc, ih cs' hlen]
        constructor
        · exact accept2_cons_label hc
        · intro h
          rcases (accept2_head h) with ⟨_, h2⟩ | ⟨hdot, _⟩ | ⟨hnl, _⟩
          · exact h2
          · exact absurd (hdot ▸ hc) (by decide)
          · exact absurd (hnl ▸ hc) (by decide)
      · by_cases hdot : c = '.'
        · subst hdot
          match cs' with
          | [] =>
            refine iff_of_false (by decide) ?_
            intro h
            rcases (accept2_head h) with ⟨h1, _⟩ | ⟨_, c', cs'', hcs'', _⟩ | ⟨hnl, _⟩
            · exact absurd h1 (by decide)
            · exact absurd hcs'' (by simp)
            · exact absurd hnl (by decide)
          | c' :: cs'' =>
            rw [inLabel_cons_dot c' cs'']
            have hlen'' : cs''.length ≤ n := by
              simp only [List.length_cons] at hlen
              omega
            constructor
            · intro h
              obtain ⟨h1, h2⟩ := Bool.and_eq_true_iff.mp h
              exact accept2_cons_dot h1 ((ih cs'' hlen'').mp h2)
            · intro h
              rcases (accept2_head h) with ⟨h1, _⟩ | ⟨_, e, es, hee, he, h2⟩ | ⟨hnl, _⟩
              · exact absurd h1 (by decide)
              · injection hee with h3 h4
                subst h3
                subst h4
                simp [he, (ih cs'' hlen'').mpr h2]
              · exact absurd hnl (by decide)
        · by_cases hnl : c = '\n'
          · subst hnl
            rw [inLabel_cons_nl cs']
            constructor
            · intro h
              rw [List.isEmpty_iff.mp h]
              exact Accept2_nl
            · intro h
              rcases (accept2_head h) with ⟨h1, _⟩ | ⟨hd, _⟩ | ⟨_, h2⟩
              · exact absurd h1 (by decide)
              · exact absurd hd (by decide)
              · simp [h2]
          · rw [inLabel_cons_other cs' hc hdot hnl]
            refine iff_of_false (by simp) ?_
            intro h
            rcases (accept2_head h) with ⟨h1, _⟩ | ⟨hd, _⟩ | ⟨hn2, _⟩
            · exact hc h1
            · exact hdot hd
            · exact hnl hn2

theorem inLabel_iff (cs : List Char) : inLabel cs = true ↔ Accept2 cs :=
  inLabel_iff_aux cs.length cs le_rfl

theorem firstLabel_iff (cs : List Char) : firstLabel cs = true ↔ Accept1 cs := by
  induction cs with
  | nil => exact iff_of_false (by decide) Accept1_not_nil
  | cons c cs ih =>
    by_cases hc : labelChar c = true
    · rw [firstLabel_cons_label cs hc, ih]
      constructor
      · exact accept1_cons_label hc
      · intro h
        rcases (accept1_head h) with ⟨_, h2⟩ | ⟨hdot, _⟩
        · exact h2
        · exact absurd (hdot ▸ hc) (by decide)
    · by_cases hdot : c = '.'
      · subst hdot
        match cs with
        | [] =>
          refine iff_of_false (by decide) ?_
          intro h
          rcases (accept1_head h) with ⟨h1, _⟩ | ⟨_, c', cs'', hcs'', _⟩
          · exact absurd h1 (by decide)
          · exact absurd hcs'' (by simp)
        | c' :: cs'' =>
          rw [firstLabel_cons_dot c' cs'']
          constructor
          · intro h
            obtain ⟨h1, h2⟩ := Bool.and_eq_true_iff.mp h
            exact accept1_cons_dot h1 ((inLabel_iff cs'').mp h2)
          · intro h
            rcases (accept1_head h) with ⟨h1, _⟩ | ⟨_, e, es, hee, he, h2⟩
            · exact absurd h1 (by decide)
            · injection hee with h3 h4
              subst h3
              subst h4
              simp [he, (inLabel_iff cs'').mpr h2]
      · rw [firstLabel_cons_other cs hc hdot]
        refine iff_of_false (by simp) ?_
        intro h
        rcases (accept1_head h) with ⟨h1, _⟩ | ⟨hd, _⟩
        · exact hc h1
        · exact hdot hd

theorem matchHostname_iff (cs : List Char) :
    (match cs with
      | [] => false
      | c :: cs' => labelChar c && firstLabel cs') = true ↔ regexLangL cs := by
  cases cs with
  | nil =>
    refine iff_of_false (by simp) ?_
    rintro ⟨l₀, ls, ⟨hne, hl⟩, hlsne, hls, heq⟩
    match l₀ with
    | [] => exact hne rfl
    | d :: l' => rcases heq with h | h <;> simp at h
  | cons c cs' =>
    constructor
    · intro h
      obtain ⟨h1, h2⟩ := Bool.and_eq_true_iff.mp h
      obtain ⟨l, ls, hl, hne, hls, heq⟩ := (firstLabel_iff cs').mp h2
      refine ⟨c :: l, ls, ⟨by simp, ?_⟩, hne, hls, ?_⟩
      · intro d hd
        rcases List.mem_cons.mp hd with h' | h'
        · exact h' ▸ h1
        · exact hl d h'
      · rcases heq with h' | h' <;> simp [h']
    · rintro ⟨l₀, ls, ⟨hne, hl⟩, hlsne, hls, heq⟩
      match l₀ with
      | [] => exact absurd rfl hne
      | d :: l' =>
        show (labelChar c && firstLabel cs') = true
        rcases heq with h | h <;>
          simp only [List.cons_append, List.append_assoc, List.cons.injEq] at h
        · have h1 : labelChar c = true := by
            rw [h.1]
            exact hl d (by simp)
          have h2 : firstLabel cs' = true := (firstLabel_iff cs').mpr
            ⟨l', ls, fun e he => hl e (by simp [he]), hlsne, hls, Or.inl h.2⟩
          rw [h1, h2]
          rfl
        · have h1 : labelChar c = true := by
            rw [h.1]
            exact hl d (by simp)
          have h2 : firstLabel cs' = true := (firstLabel_iff cs').mpr
            ⟨l', ls, fun e he => hl e (by simp [he]), hlsne, hls,
              Or.inr (by rw [h.2, List.append_assoc])⟩
          rw [h1, h2]
          rfl

theorem is_valid_hostname_iff (s : String) :
    is_valid_hostname s = true ↔ regexLang s := by
  rw [is_valid_hostname, regexLang]
  exact matchHostname_iff s.toList

/-! ## Supporting lemmas for the normalizer and the store -/

theorem char_toNat_ofNat_valid (n : Nat) (h : n.isValidChar) :
    (Char.ofNat n).toNat = n := by
  simp [Char.ofNat, h, Char.toNat, Char.ofNatAux, UInt32.toNat, BitVec.toNat_ofNatLt]

theorem toLower_not_ascii_upper (c : Char) :
    ¬(65 ≤ c.toLower.toNat ∧ c.toLower.toNat ≤ 90) := by
  rw [Char.toLower]
  by_cases h : c.toNat ≥ 65 ∧ c.toNat ≤ 90
  · rw [if_pos h]
    rw [char_toNat_ofNat_valid (c.toNat + 32) (Or.inl (by omega))]
    omega
  · rw [if_neg h]
    omega

theorem lowerHost_no_percent_no_upper (raw : List Char)
    (hp : ∀ c ∈ lowerHost raw, c ≠ '%') :
    ∀ c ∈ lowerHost raw, ¬(65 ≤ c.toNat ∧ c.toNat ≤ 90) := by
  have hdrop : raw.dropWhile (fun c => c != '%') = [] := by
    by_contra hne
    have hhead := List.head_dropWhile_not (fun c => c != '%') raw hne
    have hmem : (raw.dropWhile (fun c => c != '%')).head hne ∈ lowerHost raw := by
      rw [lowerHost]
      exact List.mem_append_right _ (List.head_mem hne)
    exact hp _ hmem (by simpa using hhead)
  intro c hc
  rw [lowerHost, hdrop, List.append_nil] at hc
  obtain ⟨x, _, rfl⟩ := List.mem_map.mp hc
  exact toLower_not_ascii_upper x

theorem urlhost_some_shape (s hstr : String) (hh : urlhost s = some hstr) :
    hstr = String.mk (lowerHost (hostRawOf (hostinfoOf (netlocOf
      (splitScheme (sanitizeURL s)))))) := by
  by_cases he : (hostRawOf (hostinfoOf (netlocOf (splitScheme (sanitizeURL s))))).isEmpty
  · rw [urlhost] at hh
    rw [if_pos he] at hh
    cases hh
  · rw [urlhost] at hh
    rw [if_neg he] at hh
    exact (Option.some_inj.mp hh).symm

theorem urlhost_no_upper (s hstr : String) (hh : urlhost s = some hstr)
    (hp : ∀ c ∈ hstr.toList, c ≠ '%') :
    ∀ c ∈ hstr.toList, ¬(65 ≤ c.toNat ∧ c.toNat ≤ 90) := by
  rw [urlhost_some_shape s hstr hh] at hp ⊢
  exact lowerHost_no_percent_no_upper _ hp

theorem removeFirst_eq_none (n : Int) (l : List IPAddress) (h : ∀ r ∈ l, r.id ≠ n) :
    removeFirst n l = none := by
  induction l with
  | nil => rfl
  | cons r rs ih =>
    rw [removeFirst, if_neg (h r (by simp))]
    rw [ih (fun x hx => h x (by simp [hx]))]
    rfl

theorem resolve_ip_step_not_back (resolver : Resolver) (st : Store) (input : String)
    (h : input ≠ "back") :
    resolve_ip_step resolver st input =
      match resolver (candidate input) with
      | some ip =>
        ⟨.stored (candidate input) ip, store_ip_address st (candidate input) ip,
          [candidate input]⟩
      | none => ⟨.resolveFailed (candidate input), st, [candidate input]⟩ := by
  rw [resolve_ip_step, if_neg h]

theorem resolve_ip_step_calls (resolver : Resolver) (st : Store) (input : String)
    (h : input ≠ "back") :
    (resolve_ip_step resolver st input).resolverCalls = [candidate input] := by
  rw [resolve_ip_step_not_back resolver st input h]
  cases resolver (candidate input) <;> rfl

theorem urlhost_none_candidate (s : String) (h : urlhost s = none) :
    candidate s = s := by
  rw [candidate, h]
  rfl

/-! ## The claims -/

/-- C1: the resolve pipeline never applies the hostname validator: on input
`"abcd"` (length 4) one loop iteration passes `"abcd"` straight to the
platform resolver, even though constructing `ResolveInput` — which
`resolve_ip` never does — would reject `"abcd"` with the length-specific
pydantic message. -/
theorem C1_validator_bypassed (resolver : Resolver) (st : Store) :
    (resolve_ip_step resolver st "abcd").resolverCalls = ["abcd"] ∧
    resolveInputCheck "abcd" = .error "String should have at least 6 characters" := by
  refine ⟨?_, rfl⟩
  rw [resolve_ip_step_calls resolver st "abcd" (by decide)]
  rw [show candidate "abcd" = "abcd" from by decide]

/-- C2 counterexample: `"a.b"` matches the hostname regex but has length
3 ≤ 4, and `is_valid_hostname` accepts it — the claimed equivalence with
"regex match AND length > 4" fails at `"a.b"`. -/
theorem C2_counterexample :
    ¬ (is_valid_hostname "a.b" = true ↔ (regexLang "a.b" ∧ 4 < "a.b".length)) := by
  intro h
  have h2 := (h.mp (by decide)).2
  exact absurd h2 (by decide)

/-- C2 (amended): `is_valid_hostname` accepts a string exactly when it
matches `^[a-zA-Z0-9-]+(\.[a-zA-Z0-9-]+)+$` under Python `re.match`
semantics (which also allow one trailing newline before `$`); the function
imposes no length requirement at all. -/
theorem C2_validator_is_exactly_the_regex (s : String) :
    is_valid_hostname s = true ↔ regexLang s :=
  is_valid_hostname_iff s

/-- C3: when the resolver fails on the candidate hostname of a non-sentinel
input, the iteration reports `resolveFailed` carrying exactly the string
that was passed to the resolver (the unique resolver call), and the store
is unchanged. -/
theorem C3_failure_reports_exact_hostname (resolver : Resolver) (st : Store)
    (input : String) (hb : input ≠ "back") (hok : asciiNoBracket input = true)
    (hfail : resolver (candidate input) = none) :
    resolve_ip_step resolver st input =
      ⟨.resolveFailed (candidate input), st, [candidate input]⟩ := by
  rw [resolve_ip_step_not_back resolver st input hb, hfail]

/-- C3 witness: `"doesnotexist.invalid"` is its own candidate hostname; a
resolver that fails makes the iteration report exactly that string with no
store mutation. -/
theorem C3_failure_reports_exact_hostname_witness :
    resolve_ip_step (fun _ => none) emptyStore "doesnotexist.invalid" =
      ⟨.resolveFailed "doesnotexist.invalid", emptyStore, ["doesnotexist.invalid"]⟩ := by
  rw [C3_failure_reports_exact_hostname (fun _ => none) emptyStore
    "doesnotexist.invalid" (by decide) (by decide) rfl]
  rw [show candidate "doesnotexist.invalid" = "doesnotexist.invalid" from by decide]

/-- C4 counterexample: the code's candidate is `urlparse(...).hostname`,
which strips the port — not the netloc — so the claim fails on
`"http://example.com:8080/path"`; and a non-URL input is passed through
untrimmed, so the claim also fails on `"  plain text  "`. -/
theorem C4_counterexample :
    candidate "http://example.com:8080/path" ≠
      candidateSpec "http://example.com:8080/path" ∧
    candidate "  plain text  " ≠ candidateSpec "  plain text  " := by
  exact ⟨by decide, by decide⟩

/-- C4 (amended): the candidate is the `hostname` attribute of the parsed
URL — lowercased, with userinfo and port stripped — when that attribute is
present, and the raw input itself, unchanged (in particular not trimmed),
when it is absent; on bracket-free ASCII inputs the extraction is total
(no exception). -/
theorem C4_candidate_is_urlparse_hostname :
    candidate "http://example.com:8080/path" = "example.com" ∧
    candidate "http://user:pw@Example.COM:8080/p" = "example.com" ∧
    (∀ s, asciiNoBracket s = true → urlhost s = none → candidate s = s) := by
  refine ⟨by decide, by decide, ?_⟩
  intro s _ h
  exact urlhost_none_candidate s h

/-- C4 witness: a free-form non-URL input is passed through unchanged. -/
theorem C4_candidate_is_urlparse_hostname_witness :
    candidate "  plain text  " = "  plain text  " :=
  C4_candidate_is_urlparse_hostname.2.2 "  plain text  " (by decide) (by decide)

/-- C5: the sentinel `"back"` aborts the iteration: no resolver call, no
new record, the store is returned exactly as it was. -/
theorem C5_back_aborts_without_side_effects (resolver : Resolver) (st : Store) :
    resolve_ip_step resolver st "back" = ⟨.aborted, st, []⟩ := by
  rw [resolve_ip_step, if_pos rfl]

/-- C6: round-trip through the record store: inserting
`("example.com", "93.184.216.34")` into the empty store yields exactly one
record with the freshly assigned id 1; deleting id 1 reports success and
the subsequent listing is empty. -/
theorem C6_store_roundtrip :
    get_ip_addresses (store_ip_address emptyStore "example.com" "93.184.216.34") =
      [⟨1, "example.com", "93.184.216.34"⟩] ∧
    delete_record "1" (store_ip_address emptyStore "example.com" "93.184.216.34") =
      (.deleted 1, ⟨[], 2⟩) ∧
    get_ip_addresses ⟨[], 2⟩ = [] := by
  exact ⟨by decide, by decide, rfl⟩

/-- C7: a delete request whose id does not parse as an integer is reported
as an invalid identifier with the store untouched; a parseable id matching
no record is reported as not found, also with the store untouched. -/
theorem C7_delete_error_paths (st : Store) (input : String) :
    (parsePyInt input = none → delete_record input st = (.invalidId, st)) ∧
    (∀ n, parsePyInt input = some n → (∀ r ∈ st.records, r.id ≠ n) →
      delete_record input st = (.notFound n, st)) := by
  constructor
  · intro h
    rw [delete_record, h]
  · intro n hn hmiss
    rw [delete_record, hn]
    show (match removeFirst n st.records with
      | some recs => (DeleteOutcome.deleted n, { st with records := recs })
      | none => (DeleteOutcome.notFound n, st)) = (DeleteOutcome.notFound n, st)
    rw [removeFirst_eq_none n st.records hmiss]

/-- C7 witness: `delete_record "xyz"` reports an invalid id and
`delete_record "7"` on the empty store reports not-found; neither mutates
the store. -/
theorem C7_delete_error_paths_witness :
    delete_record "xyz" emptyStore = (.invalidId, emptyStore) ∧
    delete_record "7" emptyStore = (.notFound 7, emptyStore) :=
  ⟨(C7_delete_error_paths emptyStore "xyz").1 (by decide),
   (C7_delete_error_paths emptyStore "7").2 7 (by decide) (by decide)⟩

/-- C8: `clear_database` is atomic: a storage fault rolls back, leaving the
store exactly as it was and surfacing the underlying cause text; success
leaves the store empty and reports the number of removed rows. -/
theorem C8_clear_is_atomic (st : Store) (fault : Option String) :
    (∀ cause, fault = some cause →
      clear_database st fault =
        (.storageError ("Error clearing the database: " ++ cause), st)) ∧
    (fault = none →
      clear_database st fault = (.cleared st.records.length, ⟨[], st.nextId⟩)) := by
  constructor
  · intro cause h
    subst h
    rfl
  · intro h
    subst h
    rfl

/-- C8 witness: on a one-record store a fault leaves the record in place
and reports the cause; without a fault the store ends up empty. -/
theorem C8_clear_is_atomic_witness :
    clear_database ⟨[⟨1, "example.com", "93.184.216.34"⟩], 2⟩ (some "disk error") =
      (.storageError "Error clearing the database: disk error",
        ⟨[⟨1, "example.com", "93.184.216.34"⟩], 2⟩) ∧
    clear_database ⟨[⟨1, "example.com", "93.184.216.34"⟩], 2⟩ none =
      (.cleared 1, ⟨[], 2⟩) := by
  constructor
  · rw [(C8_clear_is_atomic ⟨[⟨1, "example.com", "93.184.216.34"⟩], 2⟩
      (some "disk error")).1 "disk error" rfl]
    rfl
  · rw [(C8_clear_is_atomic ⟨[⟨1, "example.com", "93.184.216.34"⟩], 2⟩ none).2 rfl]
    rfl

/-- C9: clearing an already-empty store succeeds and reports 0 removed
records, leaving the store as it was. -/
theorem C9_clear_empty_store (st : Store) (h : st.records = []) :
    clear_database st none = (.cleared 0, st) := by
  cases st with
  | mk recs nid =>
    simp only at h
    subst h
    rfl

/-- C9 witness: clearing the fresh empty store reports 0. -/
theorem C9_clear_empty_store_witness :
    clear_database emptyStore none = (.cleared 0, emptyStore) :=
  C9_clear_empty_store emptyStore rfl

/-- C10: the candidate hostname of a URL input is lowercased by the
`hostname` attribute (so the stored hostname can differ in case from the
raw input): concretely for `"HTTP://EXAMPLE.COM/path"`, and in general any
extracted host without a `%` zone separator contains no ASCII uppercase
letter; an input without a URL host is passed through entirely
unchanged — no trimming, no case change. -/
theorem C10_candidate_lowercased :
    candidate "HTTP://EXAMPLE.COM/path" = "example.com" ∧
    (∀ s hstr, urlhost s = some hstr → (∀ c ∈ hstr.toList, c ≠ '%') →
      ∀ c ∈ hstr.toList, ¬(65 ≤ c.toNat ∧ c.toNat ≤ 90)) ∧
    (∀ s, asciiNoBracket s = true → urlhost s = none → candidate s = s) := by
  refine ⟨by decide, ?_, ?_⟩
  · intro s hstr hh hp
    exact urlhost_no_upper s hstr hh hp
  · intro s _ h
    exact urlhost_none_candidate s h

/-- C10 witness: the uppercase URL input yields a lowercase candidate, and
`"Not A Url"` (which has no URL host) passes through unchanged with its
uppercase letters intact. -/
theorem C10_candidate_lowercased_witness :
    candidate "HTTP://EXAMPLE.COM/path" = "example.com" ∧
    candidate "Not A Url" = "Not A Url" :=
  ⟨C10_candidate_lowercased.1,
   C10_candidate_lowercased.2.2 "Not A Url" (by decide) (by decide)⟩
